import Mathlib

/-!
Verification development for the bapsflib shot-number resolution and
multi-stream alignment engine (`bapsflib.lapdhdf`).

The single-stream resolver (`condition_shotnum` of `hdfreaddata.py` and
`condition_shotnum_list` of `hdfreadcontrol.py`), the row-index path and
the cross-stream alignment logic of `hdfReadData` are exercised by the
repository's test suite but their bodies are not present in the source
tree; they are therefore modelled here from the specification
(spec.md §3, §4.1, §4.2, §4.3, §7), faithful to its words, and the
claims are settled against those models.
-/

namespace Bapsflib

/-- Error taxonomy of the engine (spec.md §7): `InvalidRequest` for a
request with no usable shot numbers (or an empty intersection at
single-stream resolve), `OutOfRange` for a row index outside storage
bounds, `MalformedRequest` for a non-integer request element, and
`EmptyAlignment` for an empty cross-stream intersection.  All are
surfaced to the Python caller as `ValueError`-style exceptions. -/
inductive EngineError
  | InvalidRequest
  | OutOfRange
  | MalformedRequest
  | EmptyAlignment
  deriving DecidableEq, Repr

/-- Insert a shot number into a strictly ascending list, discarding it
when already present.  Building block of request normalization. -/
def insertSorted (x : Int) : List Int → List Int
  | [] => [x]
  | y :: ys =>
    if x < y then x :: y :: ys
    else if x = y then y :: ys
    else y :: insertSorted x ys

/-- Modelled from the spec: request normalization (spec.md §4.1 step 1).
Normalize a requested shot-number list to an ascending sequence of
unique positive integers: values `≤ 0` are removed, duplicates collapse,
and the output follows ascending numeric order, not input order. -/
def normalize (req : List Int) : List Int :=
  (req.filter (fun x => decide (0 < x))).foldr insertSorted []

theorem mem_insertSorted (a x : Int) (l : List Int) :
    a ∈ insertSorted x l ↔ a = x ∨ a ∈ l := by
  induction l with
  | nil => simp [insertSorted]
  | cons y ys ih =>
    by_cases hlt : x < y
    · simp [insertSorted, hlt]
    · by_cases heq : x = y
      · subst heq
        simp [insertSorted]
      · simp only [insertSorted, if_neg hlt, if_neg heq, List.mem_cons, ih]
        tauto

theorem chain_insertSorted (x : Int) (l : List Int)
    (h : List.Chain' (· < ·) l) :
    List.Chain' (· < ·) (insertSorted x l) := by
  induction l with
  | nil => simp [insertSorted]
  | cons y ys ih =>
    by_cases hlt : x < y
    · simp only [insertSorted, if_pos hlt]
      rw [List.chain'_cons]
      exact ⟨hlt, h⟩
    · by_cases heq : x = y
      · simpa [insertSorted, hlt, heq] using h
      · have hyx : y < x := by
          rcases lt_trichotomy x y with h1 | h1 | h1
          · exact absurd h1 hlt
          · exact absurd h1 heq
          · exact h1
        rw [List.chain'_cons'] at h
        have htail := ih h.2
        simp only [insertSorted, if_neg hlt, if_neg heq]
        rw [List.chain'_cons']
        refine ⟨?_, htail⟩
        intro z hz
        cases ys with
        | nil => simp [insertSorted] at hz; simpa [hz] using hyx
        | cons b bs =>
          by_cases hxb : x < b
          · simp [insertSorted, hxb] at hz
            simpa [hz] using hyx
          · by_cases hxeqb : x = b
            · simp [insertSorted, hxb, hxeqb] at hz
              have := h.1 b (by simp)
              simpa [hz] using this
            · simp [insertSorted, hxb, hxeqb] at hz
              have := h.1 b (by simp)
              simpa [hz] using this

theorem mem_normalize (a : Int) (req : List Int) :
    a ∈ normalize req ↔ a ∈ req ∧ 0 < a := by
  unfold normalize
  induction req with
  | nil => simp
  | cons r rs ih =>
    by_cases hr : 0 < r
    · simp only [List.filter_cons, decide_eq_true_eq, hr, if_pos,
        List.foldr_cons, mem_insertSorted, ih, List.mem_cons]
      constructor
      · rintro (h | ⟨h1, h2⟩)
        · exact ⟨Or.inl h, h ▸ hr⟩
        · exact ⟨Or.inr h1, h2⟩
      · rintro ⟨h1 | h1, h2⟩
        · exact Or.inl h1
        · exact Or.inr ⟨h1, h2⟩
    · simp only [List.filter_cons, decide_eq_true_eq, hr, if_neg,
        not_false_iff, ih, List.mem_cons]
      constructor
      · rintro ⟨h1, h2⟩; exact ⟨Or.inr h1, h2⟩
      · rintro ⟨h1 | h1, h2⟩
        · exact absurd (h1 ▸ h2) hr
        · exact ⟨h1, h2⟩

theorem chain_normalize (req : List Int) :
    List.Chain' (· < ·) (normalize req) := by
  unfold normalize
  induction req with
  | nil => simp
  | cons r rs ih =>
    by_cases hr : 0 < r
    · simp only [List.filter_cons, decide_eq_true_eq, hr, if_pos,
        List.foldr_cons]
      exact chain_insertSorted _ _ ih
    · simpa [List.filter_cons, hr] using ih

theorem normalize_eq_nil_iff (req : List Int) :
    normalize req = [] ↔ ∀ a ∈ req, ¬ 0 < a := by
  rw [List.eq_nil_iff_forall_not_mem]
  constructor
  · intro h a ha hpos
    exact h a ((mem_normalize a req).mpr ⟨ha, hpos⟩)
  · intro h a ha
    obtain ⟨h1, h2⟩ := (mem_normalize a req).mp ha
    exact h a h1 h2

theorem insertSorted_of_lt_head (x : Int) (l : List Int)
    (h : ∀ y ∈ l.head?, x < y) : insertSorted x l = x :: l := by
  cases l with
  | nil => rfl
  | cons y ys =>
    have hxy : x < y := h y rfl
    simp [insertSorted, hxy]

theorem normalize_eq_self (l : List Int)
    (hchain : List.Chain' (· < ·) l) (hpos : ∀ x ∈ l, 0 < x) :
    normalize l = l := by
  unfold normalize
  rw [List.filter_eq_self.mpr (fun a ha => by simpa using hpos a ha)]
  induction l with
  | nil => rfl
  | cons x xs ih =>
    rw [List.chain'_cons'] at hchain
    simp only [List.foldr_cons]
    rw [ih hchain.2 (fun a ha => hpos a (List.mem_cons_of_mem x ha))]
    exact insertSorted_of_lt_head x xs hchain.1

/-- Modelled from the spec: the value-to-row lookup of the Row Index
Store (spec.md §3, §4.1 step 3).  `findRow col s` returns the physical
row (0-based position in storage order) whose shot-number column entry
equals `s` exactly — exact-match lookup, never an arithmetic offset —
or `none` when no row stores `s`. -/
def findRow : List Int → Int → Option Nat
  | [], _ => none
  | v :: vs, s => if v = s then some 0 else (findRow vs s).map (· + 1)

/-- Modelled from the spec: the per-stream Resolution Result
(spec.md §3): the ascending physical rows to fetch, the canonical
output shot-number axis, and the validity mask over that axis. -/
structure Resolution where
  row_indices : List Nat
  output_shots : List Int
  validity_mask : List Bool
  deriving DecidableEq, Repr

/-- Modelled from the spec: the single-stream Shot Resolver
`condition_shotnum` of `hdfreaddata.py` (spec.md §4.1), whose body is
absent from the source tree.  Normalizes the request, fails with
`InvalidRequest` when the normalized set is empty, and then either
intersects with storage (all-true mask, failing with `InvalidRequest`
on an empty intersection) or keeps the full normalized axis with a
per-shot existence mask. -/
def condition_shotnum (req : List Int) (col : List Int)
    (intersect : Bool) : Except EngineError Resolution :=
  let sn := normalize req
  if sn = [] then .error .InvalidRequest
  else if intersect then
    let valid := sn.filter (fun s => (findRow col s).isSome)
    if valid = [] then .error .InvalidRequest
    else .ok { row_indices := valid.filterMap (findRow col),
               output_shots := valid,
               validity_mask := valid.map (fun _ => true) }
  else
    .ok { row_indices := sn.filterMap (findRow col),
          output_shots := sn,
          validity_mask := sn.map (fun s => (findRow col s).isSome) }

/-- The shot numbers at the `true` positions of the validity mask, in
order: the canonical-axis entries a resolution says are backed by
physical rows. -/
def maskSelect (shots : List Int) (mask : List Bool) : List Int :=
  (shots.zip mask).filterMap (fun p => if p.2 then some p.1 else none)

/-- The shot numbers physically stored at the given rows, in order:
what the Record Materializer would read back from storage. -/
def fetchShots (col : List Int) (rows : List Nat) : List Int :=
  rows.filterMap (fun i => col[i]?)

theorem findRow_eq_some (col : List Int) (s : Int) (i : Nat)
    (h : findRow col s = some i) : col[i]? = some s := by
  induction col generalizing i with
  | nil => simp [findRow] at h
  | cons v vs ih =>
    by_cases hv : v = s
    · simp [findRow, hv] at h
      simp [← h, hv]
    · rcases hf : findRow vs s with _ | j
      · simp [findRow, hv, hf] at h
      · simp [findRow, hv, hf] at h
        simp [← h, ih j hf]

theorem findRow_isSome_iff (col : List Int) (s : Int) :
    (findRow col s).isSome = true ↔ s ∈ col := by
  induction col with
  | nil => simp [findRow]
  | cons v vs ih =>
    by_cases hv : v = s
    · simp [findRow, hv]
    · rcases hf : findRow vs s with _ | j
      · rw [hf] at ih
        simp only [Option.isSome_none, Bool.false_eq_true, false_iff]
          at ih
        simp [findRow, hv, hf]
        exact ⟨fun h => hv h.symm, ih⟩
      · rw [hf] at ih
        simp only [Option.isSome_some, true_iff] at ih
        simp [findRow, hv, hf, ih]

theorem maskSelect_map (xs : List Int) (f : Int → Bool) :
    maskSelect xs (xs.map f) = xs.filter f := by
  induction xs with
  | nil => rfl
  | cons x l ih =>
    by_cases hx : f x
    · simp [maskSelect, List.filter_cons, hx] at ih ⊢
      exact ih
    · simp [maskSelect, List.filter_cons, hx] at ih ⊢
      exact ih

theorem maskSelect_all_true (xs : List Int) :
    maskSelect xs (xs.map (fun _ => true)) = xs := by
  rw [maskSelect_map]
  exact List.filter_eq_self.mpr (fun a _ => rfl)

theorem fetchShots_filterMap (col : List Int) (sn : List Int) :
    fetchShots col (sn.filterMap (findRow col)) =
      sn.filter (fun s => (findRow col s).isSome) := by
  induction sn with
  | nil => rfl
  | cons s rest ih =>
    rcases hf : findRow col s with _ | i
    · simp [fetchShots, List.filterMap_cons, List.filter_cons, hf] at ih ⊢
      exact ih
    · have hget := findRow_eq_some col s i hf
      simp [fetchShots, List.filterMap_cons, List.filter_cons, hf, hget]
        at ih ⊢
      exact ih

theorem count_true_map (xs : List Int) (f : Int → Bool) :
    (xs.map f).count true = (xs.filter f).length := by
  induction xs with
  | nil => rfl
  | cons x l ih =>
    by_cases hx : f x
    · simp [List.filter_cons, hx, List.count_cons, ih]
    · simp [List.filter_cons, hx, List.count_cons, ih]

theorem filterMap_length_of_isSome (sn : List Int) (f : Int → Option Nat)
    (h : ∀ s ∈ sn, (f s).isSome = true) :
    (sn.filterMap f).length = sn.length := by
  induction sn with
  | nil => rfl
  | cons s rest ih =>
    rcases hf : f s with _ | i
    · have := h s (List.mem_cons_self s rest)
      simp [hf] at this
    · simp only [List.filterMap_cons, hf, List.length_cons]
      rw [ih (fun a ha => h a (List.mem_cons_of_mem s ha))]

theorem filter_filter_self (sn : List Int) (f : Int → Bool) :
    (sn.filter f).filter f = sn.filter f := by
  exact List.filter_eq_self.mpr (fun a ha => List.of_mem_filter ha)

/-- Modelled from the spec: value-to-row lookup over a secondary
stream's Row Index Store, which also carries a configuration-tag column
(spec.md §3, §4.2).  A row matches only when its shot-number entry
equals `s` exactly and its tag entry equals the requested configuration
`cspec`.  The store is given as the row-order list of
(shot number, tag) pairs. -/
def findRowC : List (Int × String) → String → Int → Option Nat
  | [], _, _ => none
  | vc :: rest, cspec, s =>
    if vc.1 = s ∧ vc.2 = cspec then some 0
    else (findRowC rest cspec s).map (· + 1)

/-- The shot numbers physically stored at the given rows of a tagged
(secondary-stream) store, in order. -/
def fetchShotsC (pairs : List (Int × String)) (rows : List Nat) :
    List Int :=
  rows.filterMap (fun i => (pairs[i]?).map Prod.fst)

/-- Modelled from the spec: `condition_shotnum_list` of
`hdfreadcontrol.py`, the Shot Resolver for a control-device stream
with a configuration tag (spec.md §4.1, §4.2), whose body is absent
from the source tree.  It normalizes the request, fails with
`InvalidRequest` when the normalized set is empty, and otherwise keeps
the full normalized axis with a mask marking which shots are backed by
a row of the requested configuration. -/
def condition_shotnum_list (req : List Int) (pairs : List (Int × String))
    (cspec : String) : Except EngineError Resolution :=
  let sn := normalize req
  if sn = [] then .error .InvalidRequest
  else
    .ok { row_indices := sn.filterMap (findRowC pairs cspec),
          output_shots := sn,
          validity_mask := sn.map (fun s => (findRowC pairs cspec s).isSome) }

theorem findRowC_eq_some (pairs : List (Int × String)) (cspec : String)
    (s : Int) (i : Nat) (h : findRowC pairs cspec s = some i) :
    ∃ vc, pairs[i]? = some vc ∧ vc.1 = s ∧ vc.2 = cspec := by
  induction pairs generalizing i with
  | nil => simp [findRowC] at h
  | cons vc rest ih =>
    by_cases hv : vc.1 = s ∧ vc.2 = cspec
    · simp [findRowC, hv] at h
      exact ⟨vc, by simp [← h], hv⟩
    · rcases hf : findRowC rest cspec s with _ | j
      · simp [findRowC, hv, hf] at h
      · simp [findRowC, hv, hf] at h
        obtain ⟨w, hw1, hw2⟩ := ih j hf
        exact ⟨w, by simp [← h, hw1], hw2⟩

theorem fetchShotsC_filterMap (pairs : List (Int × String))
    (cspec : String) (sn : List Int) :
    fetchShotsC pairs (sn.filterMap (findRowC pairs cspec)) =
      sn.filter (fun s => (findRowC pairs cspec s).isSome) := by
  induction sn with
  | nil => rfl
  | cons s rest ih =>
    rcases hf : findRowC pairs cspec s with _ | i
    · simp [fetchShotsC, List.filterMap_cons, List.filter_cons, hf]
        at ih ⊢
      exact ih
    · obtain ⟨vc, hvc, hs, _⟩ := findRowC_eq_some pairs cspec s i hf
      simp [fetchShotsC, List.filterMap_cons, List.filter_cons, hf,
        hvc, hs] at ih ⊢
      exact ih

theorem condition_shotnum_false_ok (req col : List Int)
    (h : normalize req ≠ []) :
    condition_shotnum req col false =
      .ok { row_indices := (normalize req).filterMap (findRow col),
            output_shots := normalize req,
            validity_mask :=
              (normalize req).map (fun s => (findRow col s).isSome) } := by
  simp [condition_shotnum, h]

theorem condition_shotnum_true_ok (req col : List Int)
    (h : normalize req ≠ [])
    (h2 : (normalize req).filter
      (fun s => (findRow col s).isSome) ≠ []) :
    condition_shotnum req col true =
      .ok { row_indices :=
              ((normalize req).filter
                (fun s => (findRow col s).isSome)).filterMap
                (findRow col),
            output_shots :=
              (normalize req).filter
                (fun s => (findRow col s).isSome),
            validity_mask :=
              ((normalize req).filter
                (fun s => (findRow col s).isSome)).map
                (fun _ => true) } := by
  simp [condition_shotnum, h, h2]

theorem condition_shotnum_list_ok (req : List Int)
    (pairs : List (Int × String)) (cspec : String)
    (h : normalize req ≠ []) :
    condition_shotnum_list req pairs cspec =
      .ok { row_indices := (normalize req).filterMap (findRowC pairs cspec),
            output_shots := normalize req,
            validity_mask :=
              (normalize req).map
                (fun s => (findRowC pairs cspec s).isSome) } := by
  simp [condition_shotnum_list, h]

theorem length_filterMap_eq_length_filter {α β : Type}
    (f : α → Option β) (l : List α) :
    (l.filterMap f).length =
      (l.filter (fun a => (f a).isSome)).length := by
  induction l with
  | nil => rfl
  | cons a rest ih =>
    rcases hf : f a with _ | b
    · simp [List.filterMap_cons, List.filter_cons, hf, ih]
    · simp [List.filterMap_cons, List.filter_cons, hf, ih]

/-- C1: for every accepted shot-number resolution — any request, any
store, either intersect mode, for the digitizer resolver
`condition_shotnum` and for the control-stream resolver
`condition_shotnum_list` — the returned triple satisfies:
`count_of_true(validity_mask) = row_indices.length`, `validity_mask`
and `output_shots` have the same length, and the shot numbers at the
`true` positions of `output_shots` equal, in the same relative order,
the shot numbers physically stored at the corresponding entries of
`row_indices`. -/
theorem resolution_roundtrip_invariant :
    (∀ (req col : List Int) (b : Bool) (r : Resolution),
        condition_shotnum req col b = .ok r →
          r.validity_mask.count true = r.row_indices.length ∧
          r.validity_mask.length = r.output_shots.length ∧
          maskSelect r.output_shots r.validity_mask =
            fetchShots col r.row_indices) ∧
    (∀ (req : List Int) (pairs : List (Int × String)) (cspec : String)
        (r : Resolution),
        condition_shotnum_list req pairs cspec = .ok r →
          r.validity_mask.count true = r.row_indices.length ∧
          r.validity_mask.length = r.output_shots.length ∧
          maskSelect r.output_shots r.validity_mask =
            fetchShotsC pairs r.row_indices) := by
  constructor
  · intro req col b r h
    by_cases hn : normalize req = []
    · simp [condition_shotnum, hn] at h
    · cases b with
      | false =>
        rw [condition_shotnum_false_ok req col hn] at h
        injection h with h
        subst h
        refine ⟨?_, by simp, ?_⟩
        · simp only [count_true_map,
            length_filterMap_eq_length_filter]
        · rw [maskSelect_map, fetchShots_filterMap]
      | true =>
        by_cases hv : (normalize req).filter
            (fun s => (findRow col s).isSome) = []
        · simp [condition_shotnum, hn, hv] at h
        · rw [condition_shotnum_true_ok req col hn hv] at h
          injection h with h
          subst h
          refine ⟨?_, by simp, ?_⟩
          · simp only [count_true_map,
              length_filterMap_eq_length_filter]
            rw [List.filter_eq_self.mpr (fun a _ => rfl)]
            conv_rhs => rw [filter_filter_self]
          · rw [maskSelect_all_true, fetchShots_filterMap,
              filter_filter_self]
  · intro req pairs cspec r h
    by_cases hn : normalize req = []
    · simp [condition_shotnum_list, hn] at h
    · rw [condition_shotnum_list_ok req pairs cspec hn] at h
      injection h with h
      subst h
      refine ⟨?_, by simp, ?_⟩
      · simp only [count_true_map, length_filterMap_eq_length_filter]
      · rw [maskSelect_map, fetchShotsC_filterMap]

/-- Witness for C1 at a concrete input: request `[51, 1]` against a
store whose shot-number column is `[1, 2]`, non-intersecting. -/
theorem resolution_roundtrip_invariant_witness :
    condition_shotnum [51, 1] [1, 2] false =
      .ok (Resolution.mk [0] [1, 51] [true, false]) ∧
    ((Resolution.mk [0] [1, 51] [true, false]).validity_mask.count true =
        (Resolution.mk [0] [1, 51] [true, false]).row_indices.length ∧
      (Resolution.mk [0] [1, 51] [true, false]).validity_mask.length =
        (Resolution.mk [0] [1, 51] [true, false]).output_shots.length ∧
      maskSelect (Resolution.mk [0] [1, 51] [true, false]).output_shots
          (Resolution.mk [0] [1, 51] [true, false]).validity_mask =
        fetchShots [1, 2]
          (Resolution.mk [0] [1, 51] [true, false]).row_indices) :=
  ⟨rfl, resolution_roundtrip_invariant.1 [51, 1] [1, 2] false
    (Resolution.mk [0] [1, 51] [true, false]) rfl⟩

/-- C2: shot-number resolution fails with `InvalidRequest` exactly when
either (a) the normalized requested-shot set is empty after removing
values `≤ 0` — in both intersect modes — or (b) intersect mode is on
and no requested shot number exists in the store's shot-number column;
`InvalidRequest` is moreover the only failure the resolver produces,
and a success is never an empty result (the failure is never downgraded
to an empty successful resolution). -/
theorem resolver_invalid_request_iff :
    (∀ (req col : List Int) (b : Bool),
        condition_shotnum req col b = .error .InvalidRequest ↔
          (normalize req = [] ∨
            (b = true ∧ ∀ s ∈ normalize req, s ∉ col))) ∧
    (∀ (req col : List Int) (b : Bool) (e : EngineError),
        condition_shotnum req col b = .error e →
          e = .InvalidRequest) ∧
    (∀ (req col : List Int) (b : Bool) (r : Resolution),
        condition_shotnum req col b = .ok r →
          r.output_shots ≠ []) := by
  have hkey : ∀ (req col : List Int),
      ((normalize req).filter (fun s => (findRow col s).isSome) = [] ↔
        ∀ s ∈ normalize req, s ∉ col) := by
    intro req col
    rw [List.filter_eq_nil_iff]
    constructor
    · intro h s hs hmem
      exact h s hs (by simpa [findRow_isSome_iff] using hmem)
    · intro h s hs hsome
      exact h s hs ((findRow_isSome_iff col s).mp (by simpa using hsome))
  refine ⟨?_, ?_, ?_⟩
  · intro req col b
    by_cases hn : normalize req = []
    · simp [condition_shotnum, hn]
    · cases b with
      | false => simp [condition_shotnum, hn]
      | true =>
        by_cases hv : (normalize req).filter
            (fun s => (findRow col s).isSome) = []
        · have hres : condition_shotnum req col true =
              .error .InvalidRequest := by
            simp [condition_shotnum, hn, hv]
          rw [hres]
          constructor
          · intro _
            exact Or.inr ⟨rfl, (hkey req col).mp hv⟩
          · intro _; rfl
        · rw [condition_shotnum_true_ok req col hn hv]
          constructor
          · intro h; exact Except.noConfusion h
          · rintro (h | ⟨_, h⟩)
            · exact absurd h hn
            · exact absurd ((hkey req col).mpr h) hv
  · intro req col b e h
    by_cases hn : normalize req = []
    · simpa [condition_shotnum, hn] using h.symm
    · cases b with
      | false => simp [condition_shotnum, hn] at h
      | true =>
        by_cases hv : (normalize req).filter
            (fun s => (findRow col s).isSome) = []
        · simpa [condition_shotnum, hn, hv] using h.symm
        · simp [condition_shotnum, hn, hv] at h
  · intro req col b r h
    by_cases hn : normalize req = []
    · simp [condition_shotnum, hn] at h
    · cases b with
      | false =>
        rw [condition_shotnum_false_ok req col hn] at h
        injection h with h
        subst h
        exact hn
      | true =>
        by_cases hv : (normalize req).filter
            (fun s => (findRow col s).isSome) = []
        · simp [condition_shotnum, hn, hv] at h
        · rw [condition_shotnum_true_ok req col hn hv] at h
          injection h with h
          subst h
          exact hv

/-- Witness for C2 at concrete inputs: the request `[0]` (empty after
normalization) fails in both modes, and the intersecting request `[60]`
against a store holding shots `[1, 2, 3]` fails. -/
theorem resolver_invalid_request_iff_witness :
    condition_shotnum [0] [1, 2, 3] true = .error .InvalidRequest ∧
    condition_shotnum [0] [1, 2, 3] false = .error .InvalidRequest ∧
    condition_shotnum [60] [1, 2, 3] true = .error .InvalidRequest :=
  ⟨(resolver_invalid_request_iff.1 [0] [1, 2, 3] true).mpr
      (Or.inl (by decide)),
   (resolver_invalid_request_iff.1 [0] [1, 2, 3] false).mpr
      (Or.inl (by decide)),
   (resolver_invalid_request_iff.1 [60] [1, 2, 3] true).mpr
      (Or.inr ⟨rfl, by decide⟩)⟩

theorem findRow_isSome_eq_decide (col : List Int) (s : Int) :
    (findRow col s).isSome = decide (s ∈ col) := by
  by_cases hm : s ∈ col
  · simp [hm, (findRow_isSome_iff col s).mpr hm]
  · have hns : ¬ (findRow col s).isSome = true :=
      fun h => hm ((findRow_isSome_iff col s).mp h)
    simp [hm, Bool.not_eq_true] at hns ⊢
    exact hns

/-- C3: for every request whose normalized set is non-empty,
non-intersecting resolution succeeds with `output_shots` equal to the
full normalized requested set — strictly ascending, containing exactly
the positive requested shot numbers, including those absent from
storage — `validity_mask[i]` true iff `output_shots[i]` exists in the
store's shot-number column, and `row_indices` fetching exactly the
present shots in ascending shot-number order; in particular
`output_shots` has the length of the deduplicated, positive-filtered
request. -/
theorem nonintersect_resolution_spec :
    ∀ (req col : List Int), normalize req ≠ [] →
      ∃ r, condition_shotnum req col false = .ok r ∧
        r.output_shots = normalize req ∧
        List.Chain' (· < ·) r.output_shots ∧
        (∀ a, a ∈ r.output_shots ↔ a ∈ req ∧ 0 < a) ∧
        r.output_shots.length = (normalize req).length ∧
        (∀ (i : Nat) (s : Int), r.output_shots[i]? = some s →
            r.validity_mask[i]? = some (decide (s ∈ col))) ∧
        fetchShots col r.row_indices =
          r.output_shots.filter (fun s => decide (s ∈ col)) := by
  intro req col hn
  refine ⟨_, condition_shotnum_false_ok req col hn, rfl, ?_, ?_, rfl,
    ?_, ?_⟩
  · exact chain_normalize req
  · exact fun a => mem_normalize a req
  · intro i s hi
    simp only [List.getElem?_map, hi, findRow_isSome_eq_decide]
    rfl
  · rw [fetchShots_filterMap]
    exact List.filter_congr
      (fun s _ => findRow_isSome_eq_decide col s)

/-- Witness for C3 at a concrete input: request `[51, 1, 1, 0]` against
a store whose shot-number column is `[1, 2]`. -/
theorem nonintersect_resolution_spec_witness :
    normalize [51, 1, 1, 0] ≠ [] ∧
    (∃ r, condition_shotnum [51, 1, 1, 0] [1, 2] false = .ok r ∧
      r.output_shots = normalize [51, 1, 1, 0] ∧
      List.Chain' (· < ·) r.output_shots ∧
      (∀ a, a ∈ r.output_shots ↔ a ∈ [51, 1, 1, 0] ∧ 0 < a) ∧
      r.output_shots.length = (normalize [51, 1, 1, 0]).length ∧
      (∀ (i : Nat) (s : Int), r.output_shots[i]? = some s →
          r.validity_mask[i]? = some (decide (s ∈ [1, 2]))) ∧
      fetchShots [1, 2] r.row_indices =
        r.output_shots.filter (fun s => decide (s ∈ [1, 2]))) :=
  ⟨by decide, nonintersect_resolution_spec [51, 1, 1, 0] [1, 2]
    (by decide)⟩

/-- The sequential store of the spec's example: shot-number column
`[1, 2, ..., 50]` (`sn_size = 50`). -/
def seqCol50 : List Int := (List.range 50).map (fun i => (i : Int) + 1)

/-- C4: for every non-empty ascending unique requested-shot set fully
contained in the shot-number column of a store holding only positive
shot numbers, intersecting resolution returns `output_shots` equal to
the requested set with an all-true validity mask; and the spec's
example holds: storage shots `1..50` with request `[1, 51]` resolve
intersecting to `output_shots = [1]`, `validity_mask = [true]`, and
non-intersecting to `output_shots = [1, 51]`,
`validity_mask = [true, false]`, `row_indices = [0]`. -/
theorem intersect_contained_resolution :
    (∀ (req col : List Int), req ≠ [] → List.Chain' (· < ·) req →
        (∀ s ∈ req, s ∈ col) → (∀ v ∈ col, 0 < v) →
        condition_shotnum req col true =
          .ok { row_indices := req.filterMap (findRow col),
                output_shots := req,
                validity_mask := req.map (fun _ => true) }) ∧
    (condition_shotnum [1, 51] seqCol50 true =
        .ok { row_indices := [0], output_shots := [1],
              validity_mask := [true] } ∧
      condition_shotnum [1, 51] seqCol50 false =
        .ok { row_indices := [0], output_shots := [1, 51],
              validity_mask := [true, false] }) := by
  constructor
  · intro req col hne hchain hsub hpos
    have hposreq : ∀ s ∈ req, 0 < s := fun s hs => hpos s (hsub s hs)
    have hnorm : normalize req = req := normalize_eq_self req hchain hposreq
    have hfilter : req.filter (fun s => (findRow col s).isSome) = req :=
      List.filter_eq_self.mpr
        (fun s hs => (findRow_isSome_iff col s).mpr (hsub s hs))
    have hn : normalize req ≠ [] := by rw [hnorm]; exact hne
    have hv : (normalize req).filter
        (fun s => (findRow col s).isSome) ≠ [] := by
      rw [hnorm, hfilter]; exact hne
    rw [condition_shotnum_true_ok req col hn hv, hnorm, hfilter]
  · exact ⟨rfl, rfl⟩

/-- Witness for C4 at a concrete input: the ascending request `[1, 2]`
fully contained in the store `[1, 2, 3]`. -/
theorem intersect_contained_resolution_witness :
    ([1, 2] : List Int) ≠ [] ∧
    List.Chain' (· < ·) ([1, 2] : List Int) ∧
    (∀ s ∈ ([1, 2] : List Int), s ∈ ([1, 2, 3] : List Int)) ∧
    (∀ v ∈ ([1, 2, 3] : List Int), 0 < v) ∧
    condition_shotnum [1, 2] [1, 2, 3] true =
      .ok { row_indices := ([1, 2] : List Int).filterMap
              (findRow [1, 2, 3]),
            output_shots := [1, 2],
            validity_mask := ([1, 2] : List Int).map (fun _ => true) } :=
  ⟨by decide, by simp [List.chain'_cons], by decide, by decide,
    intersect_contained_resolution.1 [1, 2] [1, 2, 3] (by decide)
      (by simp [List.chain'_cons]) (by decide) (by decide)⟩

/-- The gapped store of the spec: shot-number column
`[1, ..., 30, 41, ..., 60]` — values jump over the gap `31..40`. -/
def gapCol : List Int :=
  ((List.range 30).map (fun i => (i : Int) + 1)) ++
    ((List.range 20).map (fun i => (i : Int) + 41))

/-- C5: a requested shot number absent from the store's shot-number
column — such as `35` against the gapped column `1..30, 41..60` — is
classified as absent by exact-match lookup: an intersecting resolve of
a request containing only such shots fails with `InvalidRequest`, and a
non-intersecting resolve marks the position false with empty
`row_indices`, never matching a neighboring physical row. -/
theorem gap_absent_shot_resolution :
    (∀ (col : List Int) (s : Int), 0 < s → s ∉ col →
        condition_shotnum [s] col true = .error .InvalidRequest ∧
        condition_shotnum [s] col false =
          .ok { row_indices := [], output_shots := [s],
                validity_mask := [false] }) ∧
    ((35 : Int) ∉ gapCol ∧
      condition_shotnum [35] gapCol true = .error .InvalidRequest ∧
      condition_shotnum [35] gapCol false =
        .ok { row_indices := [], output_shots := [35],
              validity_mask := [false] }) := by
  constructor
  · intro col s hpos habs
    have hnorm : normalize [s] = [s] :=
      normalize_eq_self [s] (by simp) (by simpa using hpos)
    have hnone : findRow col s = none := by
      rcases hf : findRow col s with _ | i
      · rfl
      · exact absurd ((findRow_isSome_iff col s).mp (by simp [hf])) habs
    constructor
    · have hv : (normalize [s]).filter
          (fun t => (findRow col t).isSome) = [] := by
        rw [hnorm]
        simp [List.filter_cons, hnone]
      simp only [condition_shotnum, hnorm, hv]
      simp [hnone]
    · rw [condition_shotnum_false_ok [s] col (by rw [hnorm]; simp),
        hnorm]
      simp [List.filterMap_cons, hnone]
  · refine ⟨by decide, rfl, rfl⟩

/-- Witness for C5 at the spec's concrete input: shot `35` against the
gapped column. -/
theorem gap_absent_shot_resolution_witness :
    (0 : Int) < 35 ∧ (35 : Int) ∉ gapCol ∧
    (condition_shotnum [35] gapCol true = .error .InvalidRequest ∧
      condition_shotnum [35] gapCol false =
        .ok { row_indices := [], output_shots := [35],
              validity_mask := [false] }) :=
  ⟨by decide, by decide,
    gap_absent_shot_resolution.1 gapCol 35 (by decide) (by decide)⟩

/-- A raw element of a row-index request as the Python caller supplies
it: an integer-like value, or something that is not integer-like (the
tests pass strings such as a word). -/
inductive ReqElem
  | int (i : Int)
  | notInt
  deriving DecidableEq, Repr

/-- Modelled from the spec: python-style resolution of a possibly
negative row index against the store's row count (spec.md §4.1):
a negative index counts from the end. -/
def pyResolve (rowCount : Nat) (i : Int) : Int :=
  if i < 0 then i + rowCount else i

/-- Modelled from the spec: validation of one row index (spec.md §4.1):
after resolving python-style negative indices against
`store.row_count`, the index must fall inside `[0, row_count)`;
otherwise the request is rejected. -/
def resolveIndex (rowCount : Nat) (i : Int) : Option Nat :=
  if 0 ≤ pyResolve rowCount i ∧ pyResolve rowCount i < rowCount then
    some (pyResolve rowCount i).toNat
  else none

/-- Modelled from the spec: row-index request validation of the
`hdfReadData` index path (spec.md §4.1), whose body is absent from the
source tree.  Fails with `MalformedRequest` on a non-integer element
and with `OutOfRange` on an index outside `[0, row_count)` after
negative-index resolution; otherwise returns the resolved physical
rows. -/
def condition_index : List ReqElem → Nat → Except EngineError (List Nat)
  | [], _ => .ok []
  | .notInt :: _, _ => .error .MalformedRequest
  | .int i :: rest, n =>
    match resolveIndex n i with
    | none => .error .OutOfRange
    | some r => (condition_index rest n).map (r :: ·)

/-- C7: a row-index request of integer-like elements fails — with
`OutOfRange` and with no other error — exactly when some requested
index, after resolving python-style negative indices against the
store's row count, falls outside `[0, row_count)`; a request containing
a non-integer-like element whose integer elements all resolve in range
fails with `MalformedRequest`; and the valid negative index `-1`
selects the last physical row. -/
theorem index_request_validation :
    (∀ (req : List Int) (n : Nat),
        ((∃ e, condition_index (req.map ReqElem.int) n = .error e) ↔
          ∃ i ∈ req, resolveIndex n i = none) ∧
        (∀ e, condition_index (req.map ReqElem.int) n = .error e →
          e = .OutOfRange)) ∧
    (∀ (req : List ReqElem) (n : Nat), ReqElem.notInt ∈ req →
        (∀ i, ReqElem.int i ∈ req → resolveIndex n i ≠ none) →
        condition_index req n = .error .MalformedRequest) ∧
    (∀ n : Nat, 0 < n →
        condition_index [ReqElem.int (-1)] n = .ok [n - 1]) := by
  refine ⟨?_, ?_, ?_⟩
  · intro req n
    induction req with
    | nil => simp [condition_index]
    | cons i rest ih =>
      rcases hr : resolveIndex n i with _ | r
      · constructor
        · constructor
          · intro _
            exact ⟨i, List.mem_cons_self i rest, hr⟩
          · intro _
            exact ⟨.OutOfRange, by simp [condition_index, hr]⟩
        · intro e he
          simp [condition_index, hr] at he
          exact he.symm
      · constructor
        · constructor
          · rintro ⟨e, he⟩
            simp only [List.map_cons, condition_index, hr] at he
            rcases hrec : condition_index (rest.map ReqElem.int) n with
              e2 | rows
            · obtain ⟨j, hj1, hj2⟩ := ih.1.mp ⟨e2, hrec⟩
              exact ⟨j, List.mem_cons_of_mem i hj1, hj2⟩
            · rw [hrec] at he
              exact Except.noConfusion he
          · rintro ⟨j, hj1, hj2⟩
            rcases List.mem_cons.mp hj1 with hj | hj
            · subst hj
              rw [hr] at hj2
              exact Option.noConfusion hj2
            · obtain ⟨e2, he2⟩ := ih.1.mpr ⟨j, hj, hj2⟩
              exact ⟨e2, by simp [condition_index, hr, he2, Except.map]⟩
        · intro e he
          simp only [List.map_cons, condition_index, hr] at he
          rcases hrec : condition_index (rest.map ReqElem.int) n with
            e2 | rows
          · rw [hrec] at he
            injection he with he
            exact he ▸ ih.2 e2 hrec
          · rw [hrec] at he
            exact Except.noConfusion he
  · intro req n hmem hok
    induction req with
    | nil => simp at hmem
    | cons e rest ih =>
      cases e with
      | notInt => rfl
      | int i =>
        have hmem2 : ReqElem.notInt ∈ rest := by
          rcases List.mem_cons.mp hmem with h | h
          · exact ReqElem.noConfusion h
          · exact h
        have hi : resolveIndex n i ≠ none :=
          hok i (List.mem_cons_self _ _)
        rcases hr : resolveIndex n i with _ | r
        · exact absurd hr hi
        · have := ih hmem2
            (fun j hj => hok j (List.mem_cons_of_mem _ hj))
          simp [condition_index, hr, this, Except.map]
  · intro n hn
    have h1 : pyResolve n (-1) = (n : Int) - 1 := by
      simp [pyResolve]
      ring
    have h2 : resolveIndex n (-1) = some (n - 1) := by
      rw [resolveIndex, h1]
      rw [if_pos ⟨by omega, by omega⟩]
      congr 1
      omega
    simp [condition_index, h2, Except.map]

/-- Witness for C7 at the test's concrete inputs against a 50-row
store: `[-51]` and `[40, 55]` are out of range, a non-integer element
is malformed, and `[-1]` selects row 49. -/
theorem index_request_validation_witness :
    (∃ e, condition_index (([-51] : List Int).map ReqElem.int) 50 =
        .error e) ∧
    (∃ e, condition_index (([40, 55] : List Int).map ReqElem.int) 50 =
        .error e) ∧
    condition_index [ReqElem.notInt] 50 = .error .MalformedRequest ∧
    condition_index [ReqElem.int (-1)] 50 = .ok [50 - 1] :=
  ⟨(index_request_validation.1 [-51] 50).1.mpr
      ⟨-51, by decide, by decide⟩,
    (index_request_validation.1 [40, 55] 50).1.mpr
      ⟨55, by decide, by decide⟩,
    index_request_validation.2.1 [ReqElem.notInt] 50 (by decide)
      (by intro i hi; simp at hi),
    index_request_validation.2.2 50 (by decide)⟩

/-- Modelled from the spec: the row-selection dispatch of
`hdfReadData` / `File.read_data` (files.py, spec.md §4.1): both
`index` and `shotnum` default to the full slice (`none` here models an
omitted argument); when an `index` request is supplied the resolver
takes the row-index path — the shot numbers are read back from storage
to populate `output_shots` — and any supplied `shotnum` request is
ignored; when only `shotnum` is supplied the shot-number path is
taken; when both are omitted every physical row is selected. -/
def read_data_rows (index : Option (List ReqElem))
    (shotnum : Option (List Int)) (col : List Int)
    (intersect : Bool) : Except EngineError Resolution :=
  match index with
  | some idx =>
    (condition_index idx col.length).map
      (fun rows =>
        { row_indices := rows,
          output_shots := fetchShots col rows,
          validity_mask := rows.map (fun _ => true) })
  | none =>
    match shotnum with
    | some req => condition_shotnum req col intersect
    | none =>
      .ok { row_indices := List.range col.length,
            output_shots := col,
            validity_mask :=
              (List.range col.length).map (fun _ => true) }

theorem fetchShots_range (col : List Int) :
    fetchShots col (List.range col.length) = col := by
  induction col with
  | nil => rfl
  | cons v vs ih =>
    rw [fetchShots, List.length_cons, List.range_succ_eq_map,
      List.filterMap_cons]
    simp only [List.getElem?_cons_zero, List.filterMap_map]
    have hcomp : ((fun i => (v :: vs)[i]?) ∘ Nat.succ) =
        (fun i => vs[i]?) := funext (fun i => List.getElem?_cons_succ)
    rw [hcomp]
    rw [fetchShots] at ih
    rw [ih]

/-- C8: when both a row-index request and a shot-number request are
supplied to the data-read dispatch, the shot-number request is ignored
and resolution proceeds by row index alone — e.g. `index = [2, 3]`
with `shotnum = [45, 50]` against the sequential 50-shot store returns
the shot numbers `[3, 4]` stored at rows 2 and 3 — and when both are
omitted the dispatch selects every physical row of the store. -/
theorem read_data_index_precedence :
    (∀ (idx : List ReqElem) (sn : List Int) (col : List Int) (b : Bool),
        read_data_rows (some idx) (some sn) col b =
          read_data_rows (some idx) none col b) ∧
    (read_data_rows (some ([2, 3].map ReqElem.int)) (some [45, 50])
        seqCol50 true =
      .ok { row_indices := [2, 3], output_shots := [3, 4],
            validity_mask := [true, true] }) ∧
    (∀ (col : List Int) (b : Bool),
        read_data_rows none none col b =
          .ok { row_indices := List.range col.length,
                output_shots := col,
                validity_mask :=
                  (List.range col.length).map (fun _ => true) } ∧
        fetchShots col (List.range col.length) = col) := by
  refine ⟨fun idx sn col b => rfl, rfl, fun col b => ⟨rfl, ?_⟩⟩
  exact fetchShots_range col

/-- Witness for C8 at a concrete input: the two-element store
`[7, 9]`, where omitting both requests selects rows `[0, 1]`. -/
theorem read_data_index_precedence_witness :
    read_data_rows (some ([0].map ReqElem.int)) (some [45, 50])
        [7, 9] true =
      read_data_rows (some ([0].map ReqElem.int)) none [7, 9] true ∧
    (read_data_rows none none [7, 9] true =
        .ok { row_indices := List.range ([7, 9] : List Int).length,
              output_shots := [7, 9],
              validity_mask :=
                (List.range ([7, 9] : List Int).length).map
                  (fun _ => true) } ∧
      fetchShots [7, 9] (List.range ([7, 9] : List Int).length) =
        [7, 9]) :=
  ⟨read_data_index_precedence.1 ([0].map ReqElem.int) [45, 50]
      [7, 9] true,
    read_data_index_precedence.2.2 [7, 9] true⟩

/-- Element type of an output field: the record layouts expose integer
fields (bit signals) and floating-point fields (voltages, positions). -/
inductive FieldType
  | integer
  | floating
  deriving DecidableEq, Repr

/-- A stored or materialized cell value: an integer, a finite
floating-point value, or the floating NaN. -/
inductive Cell
  | intCell (n : Int)
  | floatCell (q : Rat)
  | nanCell
  deriving DecidableEq, Repr

/-- Modelled from the spec: the missing-value sentinel written by the
Record Materializer at output positions unbacked by physical storage
(spec.md §4.3, test assertDataFormat): NaN for a floating-point field
and the fixed integer `-99999` for an integer field. -/
def sentinel : FieldType → Cell
  | .integer => .intCell (-99999)
  | .floating => .nanCell

/-- Modelled from the spec: the Stream Aligner (spec.md §4.2), whose
body is absent from the source tree.  Under the intersection policy
the shared axis keeps exactly the requested shots present in the
primary stream and in every participating control stream, failing with
`EmptyAlignment` when that intersection is empty; under the union
(non-intersecting) policy the normalized requested axis is kept. -/
def alignShots (req : List Int) (primary : List Int)
    (controls : List (List Int)) (intersect : Bool) :
    Except EngineError (List Int) :=
  if intersect then
    let shared := (normalize req).filter
      (fun s => decide (s ∈ primary) &&
        controls.all (fun c => decide (s ∈ c)))
    if shared = [] then .error .EmptyAlignment
    else .ok shared
  else
    if normalize req = [] then .error .InvalidRequest
    else .ok (normalize req)

/-- Modelled from the spec: Record Materializer fill of one stream's
field along the shared axis (spec.md §4.3): a position backed by a
physical row receives the stored cell, and every other position
receives the missing-value sentinel of the field's element type.
`data` is the stream's stored column of cells, in physical row order. -/
def materializeField (ft : FieldType) (col : List Int)
    (data : List Cell) (shared : List Int) : List Cell :=
  shared.map (fun s =>
    match findRow col s with
    | some r => (data[r]?).getD (sentinel ft)
    | none => sentinel ft)

theorem findRow_lt_length (col : List Int) (s : Int) (r : Nat)
    (h : findRow col s = some r) : r < col.length := by
  have hget := findRow_eq_some col s r h
  exact (List.getElem?_eq_some_iff.mp hget).1

theorem materializeField_not_sentinel (ft : FieldType)
    (col : List Int) (data : List Cell) (shared : List Int)
    (hlen : data.length = col.length)
    (hdata : ∀ x ∈ data, x ≠ sentinel ft)
    (hmem : ∀ s ∈ shared, s ∈ col) :
    ∀ v ∈ materializeField ft col data shared, v ≠ sentinel ft := by
  intro v hv
  obtain ⟨s, hs, hval⟩ := List.mem_map.mp hv
  rcases hf : findRow col s with _ | r
  · exact absurd ((findRow_isSome_iff col s).mpr (hmem s hs))
      (by simp [hf])
  · have hr : r < data.length := hlen ▸ findRow_lt_length col s r hf
    have hx : data[r]? = some (data[r]) :=
      List.getElem?_eq_some_iff.mpr ⟨hr, rfl⟩
    rw [hf] at hval
    have hval2 : (data[r]?).getD (sentinel ft) = v := hval
    rw [hx, Option.getD_some] at hval2
    exact hval2 ▸ hdata _ (List.getElem_mem hr)

theorem materializeField_sentinel_iff (ft : FieldType)
    (col : List Int) (data : List Cell) (shared : List Int)
    (hlen : data.length = col.length)
    (hdata : ∀ x ∈ data, x ≠ sentinel ft)
    (i : Nat) (s : Int) (hi : shared[i]? = some s) :
    (materializeField ft col data shared)[i]? = some (sentinel ft) ↔
      s ∉ col := by
  have hmap : (materializeField ft col data shared)[i]? =
      some (match findRow col s with
        | some r => (data[r]?).getD (sentinel ft)
        | none => sentinel ft) := by
    rw [materializeField, List.getElem?_map, hi]
    rfl
  rw [hmap]
  rcases hf : findRow col s with _ | r
  · have hnm : s ∉ col := fun hm =>
      absurd ((findRow_isSome_iff col s).mpr hm) (by simp [hf])
    simp [hf, hnm]
  · have hmem : s ∈ col := (findRow_isSome_iff col s).mp (by simp [hf])
    have hr : r < data.length := hlen ▸ findRow_lt_length col s r hf
    have hx : data[r]? = some (data[r]) :=
      List.getElem?_eq_some_iff.mpr ⟨hr, rfl⟩
    simp only [hx, Option.getD_some, Option.some.injEq]
    constructor
    · intro h
      exact absurd h (hdata _ (List.getElem_mem hr))
    · intro h
      exact absurd hmem h

theorem mem_alignShots_intersect (req primary : List Int)
    (controls : List (List Int)) (shared : List Int)
    (h : alignShots req primary controls true = .ok shared) (s : Int) :
    s ∈ shared ↔
      s ∈ normalize req ∧ s ∈ primary ∧ ∀ c ∈ controls, s ∈ c := by
  simp only [alignShots, if_pos rfl] at h
  by_cases he : (normalize req).filter
      (fun t => decide (t ∈ primary) &&
        controls.all (fun c => decide (t ∈ c))) = []
  · rw [if_pos he] at h
    exact Except.noConfusion h
  · rw [if_neg he] at h
    injection h with h
    subst h
    simp only [List.mem_filter, Bool.and_eq_true, decide_eq_true_eq,
      List.all_eq_true, decide_eq_true_eq]


/-- C6: when control-device streams are aligned with the primary
digitizer stream under the intersection policy, the shared output
shot-number axis contains exactly the requested shot numbers valid in
the primary and in every participating control stream, and the
materialized composite record contains no sentinel fill in any
participating stream's fields; under the non-intersecting (union)
policy the normalized requested axis is kept, and a position a stream
cannot back with a physical row is filled with that stream's field
sentinel. -/
theorem alignment_policies :
    (∀ (req primary : List Int) (controls : List (List Int))
        (shared : List Int),
        alignShots req primary controls true = .ok shared →
          (∀ s, s ∈ shared ↔
            s ∈ normalize req ∧ s ∈ primary ∧ ∀ c ∈ controls, s ∈ c) ∧
          (∀ (ft : FieldType) (col : List Int) (data : List Cell),
            (col = primary ∨ col ∈ controls) →
            data.length = col.length →
            (∀ x ∈ data, x ≠ sentinel ft) →
            ∀ v ∈ materializeField ft col data shared,
              v ≠ sentinel ft)) ∧
    (∀ (req primary : List Int) (controls : List (List Int)),
        normalize req ≠ [] →
          alignShots req primary controls false = .ok (normalize req)) ∧
    (∀ (ft : FieldType) (col : List Int) (data : List Cell)
        (shared : List Int) (i : Nat) (s : Int),
        data.length = col.length →
        (∀ x ∈ data, x ≠ sentinel ft) →
        shared[i]? = some s → s ∉ col →
          (materializeField ft col data shared)[i]? =
            some (sentinel ft)) := by
  refine ⟨?_, ?_, ?_⟩
  · intro req primary controls shared h
    have hiff := mem_alignShots_intersect req primary controls shared h
    refine ⟨hiff, ?_⟩
    intro ft col data hcol hlen hdata
    refine materializeField_not_sentinel ft col data shared hlen hdata
      (fun s hs => ?_)
    obtain ⟨_, hp, hc⟩ := (hiff s).mp hs
    rcases hcol with rfl | hmem
    · exact hp
    · exact hc col hmem
  · intro req primary controls hn
    simp [alignShots, hn]
  · intro ft col data shared i s hlen hdata hi hs
    exact (materializeField_sentinel_iff ft col data shared hlen hdata
      i s hi).mpr hs

/-- Witness for C6 at a concrete input: request `[1, 2, 3]`, primary
shots `[1, 2]`, one control stream with shots `[2, 3]`; the
intersection axis is `[2]`. -/
theorem alignment_policies_witness :
    alignShots [1, 2, 3] [1, 2] [[2, 3]] true = .ok [2] ∧
    ((∀ s, s ∈ ([2] : List Int) ↔
        s ∈ normalize [1, 2, 3] ∧ s ∈ ([1, 2] : List Int) ∧
          ∀ c ∈ ([[2, 3]] : List (List Int)), s ∈ c) ∧
      (∀ (ft : FieldType) (col : List Int) (data : List Cell),
        (col = [1, 2] ∨ col ∈ ([[2, 3]] : List (List Int))) →
        data.length = col.length →
        (∀ x ∈ data, x ≠ sentinel ft) →
        ∀ v ∈ materializeField ft col data [2],
          v ≠ sentinel ft)) :=
  ⟨rfl, alignment_policies.1 [1, 2, 3] [1, 2] [[2, 3]] [2] rfl⟩

/-- C9: the missing-value sentinel written at an output position not
backed by a physical row is NaN for a floating-point field and the
fixed integer `-99999` for an integer field; provided the stored cells
never equal the sentinel, a materialized position holds the sentinel
iff its shot number is not backed by a row of the stream, and under
the intersection alignment policy no sentinel ever appears in the
primary stream's materialized output. -/
theorem sentinel_fill_values :
    sentinel .floating = .nanCell ∧
    sentinel .integer = .intCell (-99999) ∧
    (∀ (ft : FieldType) (col : List Int) (data : List Cell)
        (shared : List Int) (i : Nat) (s : Int),
        data.length = col.length →
        (∀ x ∈ data, x ≠ sentinel ft) →
        shared[i]? = some s →
        ((materializeField ft col data shared)[i]? =
            some (sentinel ft) ↔ s ∉ col)) ∧
    (∀ (req primary : List Int) (controls : List (List Int))
        (shared : List Int),
        alignShots req primary controls true = .ok shared →
        ∀ (ft : FieldType) (data : List Cell),
          data.length = primary.length →
          (∀ x ∈ data, x ≠ sentinel ft) →
          ∀ v ∈ materializeField ft primary data shared,
            v ≠ sentinel ft) := by
  refine ⟨rfl, rfl, ?_, ?_⟩
  · intro ft col data shared i s hlen hdata hi
    exact materializeField_sentinel_iff ft col data shared hlen hdata
      i s hi
  · intro req primary controls shared h ft data hlen hdata
    refine materializeField_not_sentinel ft primary data shared hlen
      hdata (fun s hs => ?_)
    exact ((mem_alignShots_intersect req primary controls shared h
      s).mp hs).2.1

/-- Witness for C9 at a concrete input: integer field, store `[1]`
with stored cell `5`, shared axis `[1, 2]`; position 1 (shot 2) is
unbacked and holds `-99999`. -/
theorem sentinel_fill_values_witness :
    (([Cell.intCell 5] : List Cell).length =
        ([1] : List Int).length) ∧
    (∀ x ∈ ([Cell.intCell 5] : List Cell),
        x ≠ sentinel .integer) ∧
    (([1, 2] : List Int)[1]? = some 2) ∧
    ((materializeField .integer [1] [Cell.intCell 5] [1, 2])[1]? =
        some (sentinel .integer) ↔ (2 : Int) ∉ ([1] : List Int)) :=
  ⟨rfl, by decide, rfl,
    sentinel_fill_values.2.2.1 .integer [1] [Cell.intCell 5] [1, 2]
      1 2 rfl (by decide) rfl⟩

/-- C10: for a multi-configuration control stream resolved with a
specific configuration tag, every physical row selected by the
returned `row_indices` carries exactly that configuration tag in the
store's tag column — no row of a different configuration is ever
fetched — for every requested shot-number set and every
configuration. -/
theorem control_config_row_tags :
    ∀ (req : List Int) (pairs : List (Int × String)) (cspec : String)
      (r : Resolution),
      condition_shotnum_list req pairs cspec = .ok r →
        ∀ i ∈ r.row_indices,
          ∃ vc, pairs[i]? = some vc ∧ vc.2 = cspec := by
  intro req pairs cspec r h i hi
  by_cases hn : normalize req = []
  · simp [condition_shotnum_list, hn] at h
  · rw [condition_shotnum_list_ok req pairs cspec hn] at h
    injection h with h
    subst h
    obtain ⟨s, hs, hfind⟩ := List.mem_filterMap.mp hi
    obtain ⟨vc, hvc, _, htag⟩ := findRowC_eq_some pairs cspec s i hfind
    exact ⟨vc, hvc, htag⟩

/-- Witness for C10 at a concrete input: a three-row store holding
configurations `a, b, a`; resolving shot `2` for configuration `a`
selects row 2, not the row of configuration `b`. -/
theorem control_config_row_tags_witness :
    condition_shotnum_list [2] [(1, "a"), (2, "b"), (2, "a")] "a" =
      .ok (Resolution.mk [2] [2] [true]) ∧
    (∀ i ∈ (Resolution.mk [2] [2] [true]).row_indices,
      ∃ vc, (([(1, "a"), (2, "b"), (2, "a")] :
          List (Int × String)))[i]? = some vc ∧ vc.2 = "a") :=
  ⟨rfl, control_config_row_tags [2] [(1, "a"), (2, "b"), (2, "a")]
    "a" (Resolution.mk [2] [2] [true]) rfl⟩

end Bapsflib
